import Mathlib

/-!
# Verification of the collaborative grid server and formula evaluator

Shallow embedding of the core of the `grid` repository:

* `src/server.js` — the in-memory WebSocket server (grid store, presence,
  last-write-wins cell edits, broadcasts);
* `src/web-socket-server/server.js` — the Lambda-backed WebSocket server
  (optimistic cell-update broadcast, cellId → cell-reference encoding);
* `src/unnamed/part_001` / `src/grid-fe/src/components/Grid.js` — the
  cell-reference codec (`cellRefToIndex`), range expansion
  (`getRangeValues`) and the formula evaluator (`evaluateFormula`).

Strings are modelled as `List Char`; JS numbers are idealised as exact
rationals extended with `Infinity`, `-Infinity` and `NaN` (IEEE-754
rounding is not modelled; every arithmetic fact proved below only involves
values on which double arithmetic is exact).  JS recursion depth (the
engine's call stack) is modelled by an explicit fuel parameter: a recursive
call with no fuel left corresponds to the `RangeError` thrown on stack
overflow, which the source catches.
-/

namespace Grid

/-! ## Characters and digit strings -/

/-- `'0' ≤ c ≤ '9'`, by code point (JS `\d`). -/
def isDigitCh (c : Char) : Bool := 48 ≤ c.toNat && c.toNat ≤ 57

/-- `'A' ≤ c ≤ 'Z'`, by code point (JS `[A-Z]`). -/
def isUpperCh (c : Char) : Bool := 65 ≤ c.toNat && c.toNat ≤ 90

/-- The decimal digit character for `d < 10` (code point `48 + d`). -/
def digitCh (d : Nat) : Char := Char.ofNat (48 + d)

/-- Numeric value of a big-endian digit string, as `parseInt` reads it:
`foldl (acc * 10 + digit)`. -/
def digitsVal (l : List Char) : Nat :=
  l.foldl (fun acc c => acc * 10 + (c.toNat - 48)) 0

/-- Big-endian decimal digits of `n`, with explicit fuel (the fuel is
always instantiated so that it dominates the number of digits). -/
def digitsBE : Nat → Nat → List Char
  | 0, _ => []
  | f + 1, n => if n < 10 then [digitCh n] else digitsBE f (n / 10) ++ [digitCh (n % 10)]

/-- Decimal string of a natural number, as JS number-to-string coercion
renders a nonnegative integer (`String(7) = "7"`). -/
def natToStr (n : Nat) : List Char := digitsBE (n + 1) n

/-- Decimal string of an integer (`String(-7) = "-7"`). -/
def intToStr (n : Int) : List Char :=
  if n < 0 then '-' :: natToStr n.natAbs else natToStr n.natAbs

theorem digitsVal_append_digit (xs : List Char) (c : Char) :
    digitsVal (xs ++ [c]) = digitsVal xs * 10 + (c.toNat - 48) := by
  simp [digitsVal, List.foldl_append]

theorem digitCh_toNat {d : Nat} (h : d < 10) : (digitCh d).toNat = 48 + d := by
  interval_cases d <;> decide

theorem isDigitCh_digitCh {d : Nat} (h : d < 10) : isDigitCh (digitCh d) = true := by
  interval_cases d <;> decide

theorem digitsBE_spec {f n : Nat} (hf : n < 10 ^ f) (hpos : 0 < f) :
    digitsVal (digitsBE f n) = n ∧
      (digitsBE f n).all isDigitCh = true ∧ digitsBE f n ≠ [] := by
  induction f generalizing n with
  | zero =>
    omega
  | succ f ih =>
    by_cases h10 : n < 10
    · refine ⟨?_, ?_, ?_⟩
      · simp [digitsBE, h10, digitsVal, digitCh_toNat h10]
      · simp [digitsBE, h10, isDigitCh_digitCh h10]
      · simp [digitsBE, h10]
    · have hdiv : n / 10 < 10 ^ f := by
        refine Nat.div_lt_of_lt_mul ?_
        calc n < 10 ^ (f + 1) := hf
        _ = 10 * 10 ^ f := by ring
      have hfpos : 0 < f := by
        by_contra hc
        have hf0 : f = 0 := by omega
        rw [hf0] at hdiv
        simp at hdiv
        omega
      obtain ⟨hval, hdig, hne⟩ := ih hdiv hfpos
      have hm : n % 10 < 10 := Nat.mod_lt _ (by norm_num)
      refine ⟨?_, ?_, ?_⟩
      · rw [digitsBE, if_neg h10, digitsVal_append_digit, hval, digitCh_toNat hm]
        omega
      · rw [digitsBE, if_neg h10]
        simp [hdig, isDigitCh_digitCh hm]
      · rw [digitsBE, if_neg h10]
        simp

theorem natToStr_spec (n : Nat) :
    digitsVal (natToStr n) = n ∧ (natToStr n).all isDigitCh = true ∧ natToStr n ≠ [] := by
  have h : n < 10 ^ (n + 1) := by
    calc n < 10 ^ n := Nat.lt_pow_self (by norm_num) n
    _ ≤ 10 ^ (n + 1) := Nat.pow_le_pow_right (by norm_num) (Nat.le_succ n)
  exact digitsBE_spec h (Nat.succ_pos n)

/-! ## Cell reference codec

`cellRefToIndex` embeds the decoder of `src/unnamed/part_001` lines 33-43
(identical algorithm in `convertGridDataToRowCol`,
`src/web-socket-server/server.js` lines 533-548): the text must match
`^([A-Z]+)(\d+)$`; the letters are read as bijective base-26
(`col = col * 26 + (code - 65 + 1)`, then `col -= 1`) and the digits via
`parseInt`, minus one.

`toReference` embeds the encoder the Lambda-backed server uses for
`cell-edit` (`src/web-socket-server/server.js` line 360):
`String.fromCharCode(65 + col) + (row + 1)` — a single character for the
column, whatever `col` is. -/

/-- Bijective base-26 value of an uppercase letter run, as the decoder's
fold computes it (`col = col * 26 + (charCodeAt(i) - 65 + 1)`). -/
def colVal (l : List Char) : Nat :=
  l.foldl (fun acc c => acc * 26 + (c.toNat - 65 + 1)) 0

/-- Decoder: `cellRefToIndex(ref)`.  Returns `(row, col)` (zero-based, as
`Int` because `parseInt(...) - 1` can be `-1` in JS, e.g. `"A0"`). -/
def cellRefToIndex (ref : List Char) : Option (Int × Int) :=
  let letters := ref.takeWhile isUpperCh
  let rest := ref.drop letters.length
  if letters = [] ∨ rest = [] ∨ ¬ rest.all isDigitCh then none
  else some ((digitsVal rest : Int) - 1, (colVal letters : Int) - 1)

/-- Encoder at the `cell-edit` boundary:
`String.fromCharCode(65 + col) + (row + 1)`. -/
def toReference (row col : Nat) : List Char :=
  Char.ofNat (65 + col) :: natToStr (row + 1)

theorem takeWhile_upper_of_digits {l : List Char} (h : l.all isDigitCh = true) :
    l.takeWhile isUpperCh = [] := by
  cases l with
  | nil => rfl
  | cons c cs =>
    simp only [List.all_cons, Bool.and_eq_true] at h
    have hup : isUpperCh c = false := by
      simp only [isDigitCh, Bool.and_eq_true, decide_eq_true_eq] at h
      simp only [isUpperCh, Bool.and_eq_false_iff, decide_eq_false_iff_not]
      left
      omega
    simp [List.takeWhile_cons, hup]

/-- C3 (amended).  Codec round-trip on the columns the single-character
encoder actually covers: for every `row ≥ 0` and `0 ≤ col ≤ 25`,
`cellRefToIndex (toReference row col) = (row, col)` — the column is
encoded as the single letter `chr(65 + col)` (not a bijective base-26
sequence) and the row as `row + 1`. -/
theorem cellRef_roundtrip (row col : Nat) (hcol : col ≤ 25) :
    cellRefToIndex (toReference row col) = some ((row : Int), (col : Int)) := by
  obtain ⟨hval, hdig, hne⟩ := natToStr_spec (row + 1)
  have hch : (Char.ofNat (65 + col)).toNat = 65 + col ∧
      isUpperCh (Char.ofNat (65 + col)) = true := by
    interval_cases col <;> exact ⟨by decide, by decide⟩
  obtain ⟨hchv, hchu⟩ := hch
  have htake : (toReference row col).takeWhile isUpperCh = [Char.ofNat (65 + col)] := by
    simp [toReference, List.takeWhile_cons, hchu, takeWhile_upper_of_digits hdig]
  have hdrop : (toReference row col).drop 1 = natToStr (row + 1) := by
    simp [toReference]
  rw [cellRefToIndex, htake]
  simp only [List.length_cons, List.length_nil, Nat.zero_add, hdrop]
  rw [if_neg]
  · have h1 : colVal [Char.ofNat (65 + col)] = col + 1 := by
      simp [colVal, hchv]
    rw [h1, hval]
    simp only [Option.some.injEq, Prod.mk.injEq]
    omega
  · simp [hne, hdig]

/-- Counterexample for C3 as stated (round trip for ALL `col ≥ 0`): at
`(row, col) = (0, 26)` the encoder emits `"[1"` (`String.fromCharCode(91)`
is `'['`, not `"AA"`), which the decoder rejects, so the round trip
fails. -/
theorem cellRef_roundtrip_fails_at_col26 :
    cellRefToIndex (toReference 0 26) = none ∧
      toReference 0 26 = ['[', '1'] := by
  constructor <;> rfl

/-- Witness for `cellRef_roundtrip` at `(row, col) = (41, 25)` (the
reference `"Z42"`). -/
theorem cellRef_roundtrip_witness :
    cellRefToIndex (toReference 41 25) = some ((41 : Int), (25 : Int)) :=
  cellRef_roundtrip 41 25 (by norm_num)

/-! ## Association-list maps (JS plain objects used as string-keyed maps) -/

/-- Lookup in a string-keyed object. -/
def alookup {V : Type} (k : String) : List (String × V) → Option V
  | [] => none
  | p :: rest => if p.1 = k then some p.2 else alookup k rest

/-- `obj[k] = v`: overwrite the existing entry or append a new one. -/
def aset {V : Type} (k : String) (v : V) : List (String × V) → List (String × V)
  | [] => [(k, v)]
  | p :: rest => if p.1 = k then (k, v) :: rest else p :: aset k v rest

/-- `delete obj[k]`. -/
def aerase {V : Type} (k : String) : List (String × V) → List (String × V)
  | [] => []
  | p :: rest => if p.1 = k then aerase k rest else p :: aerase k rest

/-- `obj[k].field = ...`: update the entry for `k` in place (no-op when the
key is absent, which the server never relies on). -/
def aupdate {V : Type} (k : String) (f : V → V) (m : List (String × V)) :
    List (String × V) :=
  m.map (fun p => if p.1 = k then (p.1, f p.2) else p)

theorem alookup_aset_self {V : Type} (k : String) (v : V) (m : List (String × V)) :
    alookup k (aset k v m) = some v := by
  induction m with
  | nil => simp [aset, alookup]
  | cons p rest ih =>
    by_cases h : p.1 = k
    · simp [aset, h, alookup]
    · simp [aset, h, alookup, ih]

theorem mem_aset {V : Type} {k : String} {v : V} {m : List (String × V)}
    {q : String × V} (hq : q ∈ aset k v m) : q = (k, v) ∨ q ∈ m := by
  induction m with
  | nil => simpa [aset] using hq
  | cons p rest ih =>
    by_cases h : p.1 = k
    · rw [aset, if_pos h] at hq
      rcases List.mem_cons.mp hq with h1 | h1
      · exact Or.inl h1
      · exact Or.inr (List.mem_cons_of_mem _ h1)
    · rw [aset, if_neg h] at hq
      rcases List.mem_cons.mp hq with h1 | h1
      · exact Or.inr (h1 ▸ List.mem_cons_self _ _)
      · rcases ih h1 with h2 | h2
        · exact Or.inl h2
        · exact Or.inr (List.mem_cons_of_mem _ h2)

theorem mem_aerase {V : Type} {k : String} {m : List (String × V)}
    {q : String × V} (hq : q ∈ aerase k m) : q ∈ m ∧ q.1 ≠ k := by
  induction m with
  | nil => simp [aerase] at hq
  | cons p rest ih =>
    by_cases h : p.1 = k
    · rw [aerase, if_pos h] at hq
      obtain ⟨h1, h2⟩ := ih hq
      exact ⟨List.mem_cons_of_mem _ h1, h2⟩
    · rw [aerase, if_neg h] at hq
      rcases List.mem_cons.mp hq with h1 | h1
      · subst h1
        exact ⟨List.mem_cons_self _ _, h⟩
      · obtain ⟨h2, h3⟩ := ih h1
        exact ⟨List.mem_cons_of_mem _ h2, h3⟩

theorem mem_aupdate {V : Type} {k : String} {f : V → V} {m : List (String × V)}
    {q : String × V} (hq : q ∈ aupdate k f m) :
    q ∈ m ∨ ∃ p ∈ m, p.1 = k ∧ q = (p.1, f p.2) := by
  obtain ⟨p, hp, hpq⟩ := List.mem_map.mp hq
  by_cases h : p.1 = k
  · rw [if_pos h] at hpq
    exact Or.inr ⟨p, hp, h, hpq.symm⟩
  · rw [if_neg h] at hpq
    exact Or.inl (hpq ▸ hp)

/-! ## The in-memory server (`src/server.js`)

State: `grid` maps a `cellId` string (`"row-col"`) to a cell record
`{ value, lastUpdated, lastUpdatedBy }`; `clients` maps a connection id to
`{ userId, position, name, color }`.  Timestamps are `Int` (JS epoch
milliseconds).  `Date.now()` at each event is supplied as an explicit
`now` argument. -/

/-- Cell record of the in-memory grid:
`{ value, lastUpdated, lastUpdatedBy }`. -/
structure CellRec where
  value : String
  lastUpdated : Int
  lastUpdatedBy : Option String
deriving DecidableEq, Repr

/-- Per-connection record: `{ userId, position, name, color }` (the live
`ws` handle is not part of the data model). -/
structure Client where
  userId : String
  position : Option (Int × Int)
  name : Option String
  color : String
deriving DecidableEq, Repr

/-- Server state: the shared `grid` and `clients` objects. -/
structure V1State where
  grid : List (String × CellRec)
  clients : List (String × Client)
deriving DecidableEq, Repr

/-- The empty initial state (`const grid = {}; const clients = {}`). -/
def v1Init : V1State := ⟨[], []⟩

/-- Entry of the `user-list` payload built by `broadcastUserList`. -/
structure UserEntry where
  userId : String
  name : String
  position : Option (Int × Int)
  color : String
deriving DecidableEq, Repr

/-- JS truthiness of the `name` field (`null` and `""` are falsy). -/
def truthyName : Option String → Bool
  | none => false
  | some s => decide (s ≠ "")

/-- The `user-list` payload of `broadcastUserList`: only clients with a
truthy `name` are listed. -/
def userListPayload (clients : List (String × Client)) : List UserEntry :=
  (clients.filter (fun p => truthyName p.2.name)).map
    (fun p => ⟨p.2.userId, p.2.name.getD "", p.2.position, p.2.color⟩)

/-- Outbound messages of the in-memory server (each is broadcast to every
open connection, except `init` / `full-grid`, sent to the new one). -/
inductive V1Msg where
  | init (userId color : String)
  | fullGrid (grid : List (String × CellRec)) (timestamp : Int)
  | userList (users : List UserEntry) (timestamp : Int)
  | cellUpdate (cellId value : String) (lastUpdatedBy : String) (timestamp : Int)
  | userPositionUpdate (userId : String) (position : Option (Int × Int)) (timestamp : Int)
  | userLeave (userId : String) (timestamp : Int)
deriving DecidableEq, Repr

/-- Inbound client messages handled by `handleMessage` (structural
`add-row` / `delete-row` are omitted: `delete-row` references an undefined
`COLS` binding and neither is needed by the claims below). -/
inductive V1InMsg where
  | setName (name : String)
  | cellEdit (cellId value : String) (timestamp : Int)
  | posChange (position : Int × Int)
deriving DecidableEq, Repr

/-- Connection-level events: channel open, an inbound message, channel
close.  `now` is the value of `Date.now()` while the event is handled. -/
inductive V1Event where
  | connect (id color : String) (now : Int)
  | inMsg (sender : String) (m : V1InMsg) (now : Int)
  | close (id : String) (now : Int)
deriving DecidableEq, Repr

/-- `${r}-${c}` — the wire-level cell key. -/
def cellKey (r c : Int) : String := ⟨intToStr r ++ '-' :: intToStr c⟩

/-- `cellId.split('-').map(Number)` on a canonical `"row-col"` key (the
server only ever builds keys of this shape; other shapes would give `NaN`
in JS and are not modelled). -/
def parseCellId (s : String) : Int × Int :=
  let l := s.data
  let a := l.takeWhile (fun c => c ≠ '-')
  let b := (l.drop a.length).drop 1
  ((digitsVal a : Int), (digitsVal b : Int))

/-- Inclusive integer range `[a, b]` (the `for` loops below). -/
def intRangeIncl (a b : Int) : List Int :=
  if a ≤ b then (List.range (b - a + 1).toNat).map (fun i => a + (i : Int)) else []

/-- `ensureGridSize(minRows = 100, minCols = 26)`: find the largest row
and column index present, then materialise an empty record (with
`lastUpdated = Date.now()`) for every missing coordinate of the covering
rectangle. -/
def ensureGridSize (g : List (String × CellRec)) (now : Int) :
    List (String × CellRec) :=
  let maxRow := g.foldl (fun m p => max m (parseCellId p.1).1) (-1)
  let maxCol := g.foldl (fun m p => max m (parseCellId p.1).2) (-1)
  let rows := max 100 (maxRow + 1)
  let cols := max 26 (maxCol + 1)
  (intRangeIncl 0 (rows - 1)).foldl (fun acc r =>
    (intRangeIncl 0 (cols - 1)).foldl (fun acc2 c =>
      match alookup (cellKey r c) acc2 with
      | some _ => acc2
      | none => aset (cellKey r c) ⟨"", now, none⟩ acc2) acc) g

/-- `handleMessage(senderId, message)`: the message dispatch of the
in-memory server.  Returns the new state and the list of broadcast
messages. -/
def handleV1 (s : V1State) (sender : String) (m : V1InMsg) (now : Int) :
    V1State × List V1Msg :=
  match m with
  | .setName n =>
    let clients := aupdate sender (fun cl => { cl with name := some n }) s.clients
    ({ s with clients := clients }, [.userList (userListPayload clients) now])
  | .cellEdit cellId value ts =>
    let apply : Bool :=
      match alookup cellId s.grid with
      | none => true
      | some cur => decide (ts ≥ cur.lastUpdated)
    if apply then
      let effTs := if ts = 0 then now else ts
      ({ s with grid := aset cellId ⟨value, effTs, some sender⟩ s.grid },
        [.cellUpdate cellId value sender effTs])
    else
      (s, [])
  | .posChange pos =>
    let clients := aupdate sender (fun cl => { cl with position := some pos }) s.clients
    ({ s with clients := clients }, [.userPositionUpdate sender (some pos) now])

/-- One event step of the in-memory server. -/
def stepV1 (s : V1State) : V1Event → V1State × List V1Msg
  | .connect id color now =>
    let clients := aset id ⟨id, none, none, color⟩ s.clients
    let grid := ensureGridSize s.grid now
    (⟨grid, clients⟩,
      [.init id color, .fullGrid grid now, .userList (userListPayload clients) now])
  | .inMsg sender m now => handleV1 s sender m now
  | .close id now =>
    let clients := aerase id s.clients
    ({ s with clients := clients },
      [.userLeave id now, .userList (userListPayload clients) now])

/-- Run a sequence of events from a starting state. -/
def runV1 (s : V1State) (evs : List V1Event) : V1State :=
  evs.foldl (fun st e => (stepV1 st e).1) s

/-! ## The Lambda-backed server (`src/web-socket-server/server.js`)

This server keeps no grid; cell state lives behind the external
`update_cell` collaborator.  Its `cell-edit` handler (lines 347-416)
immediately broadcasts the incoming raw value as a provisional computed
value to every connection, then forwards the edit upstream in the
background.  Only the synchronous part is modelled; what matters for the
claims is which messages are emitted and what the upstream request
contains. -/

/-- Per-connection record of the Lambda-backed server. -/
structure WsClient where
  userId : String
  position : Option (Int × Int)
  name : Option String
  color : String
  selectedGridId : Option String
deriving DecidableEq, Repr

/-- Outbound `cell-update` of the Lambda-backed server (the only message
kind its `cell-edit` handler broadcasts). -/
structure WsCellUpdate where
  cellId : String
  rawValue : String
  computedValue : String
  lastUpdatedBy : String
  timestamp : Int
deriving DecidableEq, Repr

/-- The payload of `lam_update_cell`: `{ operation, gridFileId,
cellCoordinate, rawValue }`.  Note the type records the full payload —
there is no timestamp field; the client's declared edit timestamp is
never forwarded upstream. -/
structure LamUpdateCell where
  operation : String
  gridFileId : String
  cellCoordinate : String
  rawValue : String
deriving DecidableEq, Repr

/-- `handleMessage` case `'cell-edit'` of the Lambda-backed server
(synchronous part): `msgTimestamp` is the message's `timestamp` field,
which the handler never reads — the optimistic broadcast is stamped with
`Date.now()` and the upstream request carries no timestamp at all.
Returns the broadcast list and the upstream request (if any). -/
def wsCellEdit (clients : List (String × WsClient)) (sender : String)
    (cellId value : String) (msgTimestamp now : Int) :
    List WsCellUpdate × Option LamUpdateCell :=
  let _ := msgTimestamp
  match (alookup sender clients).bind (fun cl => cl.selectedGridId) with
  | none => ([], none)
  | some gridId =>
    let rc := parseCellId cellId
    let cellRef := toReference rc.1.toNat rc.2.toNat
    let msgs := [⟨cellId, value, value, sender, now⟩]
    if gridId.startsWith "fallback-grid-" then (msgs, none)
    else (msgs, some ⟨"update_cell", gridId, ⟨cellRef⟩, value⟩)

/-! ## Presence invariants -/

/-- Every entry stored under key `c` has a `null` name (i.e. `c` has never
successfully run `set-name`). -/
def UnnamedAt (clients : List (String × Client)) (c : String) : Prop :=
  ∀ v : Client, (c, v) ∈ clients → v.name = none

/-- Every client record's `userId` equals its registry key (established at
connection time and never modified). -/
def KeysConsistent (clients : List (String × Client)) : Prop :=
  ∀ q : String × Client, q ∈ clients → q.2.userId = q.1

theorem handleV1_cellEdit_clients (s : V1State) (sender cid v : String)
    (ts now : Int) :
    (handleV1 s sender (.cellEdit cid v ts) now).1.clients = s.clients := by
  rw [handleV1]
  dsimp only
  split <;> rfl

theorem stepV1_preserves_inv (s : V1State) (e : V1Event) (c : String)
    (h1 : UnnamedAt s.clients c) (h2 : KeysConsistent s.clients)
    (hne : ∀ n now, e ≠ .inMsg c (.setName n) now) :
    UnnamedAt (stepV1 s e).1.clients c ∧ KeysConsistent (stepV1 s e).1.clients := by
  cases e with
  | connect id color now =>
    constructor
    · intro v hv
      rcases mem_aset hv with h | h
      · cases h
        rfl
      · exact h1 v h
    · intro q hq
      rcases mem_aset hq with h | h
      · subst h
        rfl
      · exact h2 q h
  | inMsg sender m now =>
    cases m with
    | setName n =>
      have hsc : sender ≠ c := by
        intro h
        exact hne n now (by rw [h])
      constructor
      · intro v hv
        simp only [stepV1, handleV1] at hv
        rcases mem_aupdate hv with h | ⟨⟨pk, pv⟩, hp, hpk, hq⟩
        · exact h1 v h
        · injection hq with hfst hsnd
          exact absurd (hfst.trans hpk).symm hsc
      · intro q hq
        simp only [stepV1, handleV1] at hq
        rcases mem_aupdate hq with h | ⟨⟨pk, pv⟩, hp, hpk, hq2⟩
        · exact h2 q h
        · subst hq2
          exact h2 (pk, pv) hp
    | cellEdit cid v ts =>
      rw [show (stepV1 s (.inMsg sender (.cellEdit cid v ts) now)).1.clients
          = s.clients from handleV1_cellEdit_clients s sender cid v ts now]
      exact ⟨h1, h2⟩
    | posChange pos =>
      constructor
      · intro v hv
        simp only [stepV1, handleV1] at hv
        rcases mem_aupdate hv with h | ⟨⟨pk, pv⟩, hp, hpk, hq⟩
        · exact h1 v h
        · injection hq with hfst hsnd
          subst hsnd
          exact h1 pv (by rw [hfst]; exact hp)
      · intro q hq
        simp only [stepV1, handleV1] at hq
        rcases mem_aupdate hq with h | ⟨⟨pk, pv⟩, hp, hpk, hq2⟩
        · exact h2 q h
        · subst hq2
          exact h2 (pk, pv) hp
  | close id now =>
    constructor
    · intro v hv
      exact h1 v (mem_aerase hv).1
    · intro q hq
      exact h2 q (mem_aerase hq).1

theorem runV1_preserves_inv (evs : List V1Event) (s : V1State) (c : String)
    (h1 : UnnamedAt s.clients c) (h2 : KeysConsistent s.clients)
    (hno : ∀ n now, V1Event.inMsg c (.setName n) now ∉ evs) :
    UnnamedAt (runV1 s evs).clients c ∧ KeysConsistent (runV1 s evs).clients := by
  induction evs generalizing s with
  | nil => exact ⟨h1, h2⟩
  | cons e rest ih =>
    have hne : ∀ n now, e ≠ .inMsg c (.setName n) now := by
      intro n now h
      exact hno n now (h ▸ List.mem_cons_self _ _)
    obtain ⟨h1s, h2s⟩ := stepV1_preserves_inv s e c h1 h2 hne
    have hno' : ∀ n now, V1Event.inMsg c (.setName n) now ∉ rest := by
      intro n now h
      exact hno n now (List.mem_cons_of_mem _ h)
    exact ih (stepV1 s e).1 h1s h2s hno'

theorem mem_aerase_iff {V : Type} {k : String} {m : List (String × V)}
    {q : String × V} : q ∈ aerase k m ↔ q ∈ m ∧ q.1 ≠ k := by
  constructor
  · exact mem_aerase
  · intro ⟨hm, hk⟩
    induction m with
    | nil => simp at hm
    | cons p rest ih =>
      rcases List.mem_cons.mp hm with h | h
      · subst h
        rw [aerase, if_neg hk]
        exact List.mem_cons_self _ _
      · by_cases hpk : p.1 = k
        · rw [aerase, if_pos hpk]
          exact ih h
        · rw [aerase, if_neg hpk]
          exact List.mem_cons_of_mem _ (ih h)

/-! ## Claim theorems: synchronization server -/

/-- C1.  Last-write-wins at `handleMessage` case `'cell-edit'`
(`src/server.js` lines 107-128): with a stored record whose
`lastUpdated = T`, a write stamped `T - 1` leaves the record untouched,
while writes stamped `T` or `T + 1` overwrite its value (the comparison is
`>=`, so ties favour the incoming write). -/
theorem writeCell_lastWriteWins (s : V1State) (sender cellId value : String)
    (now T : Int) (rec : CellRec)
    (hrec : alookup cellId s.grid = some rec) (hT : rec.lastUpdated = T) :
    alookup cellId (handleV1 s sender (.cellEdit cellId value (T - 1)) now).1.grid
        = some rec ∧
    (alookup cellId
        (handleV1 s sender (.cellEdit cellId value T) now).1.grid).map (·.value)
        = some value ∧
    (alookup cellId
        (handleV1 s sender (.cellEdit cellId value (T + 1)) now).1.grid).map (·.value)
        = some value := by
  subst hT
  refine ⟨?_, ?_, ?_⟩
  · have hc : ¬ (rec.lastUpdated - 1 ≥ rec.lastUpdated) := by omega
    simp [handleV1, hrec, hc]
  · simp [handleV1, hrec, le_refl, alookup_aset_self]
  · have hc : rec.lastUpdated + 1 ≥ rec.lastUpdated := by omega
    simp [handleV1, hrec, hc, alookup_aset_self]

/-- Witness for `writeCell_lastWriteWins`: a one-cell grid whose record
has `lastUpdated = 10`, hit with writes stamped `9`, `10` and `11`. -/
theorem writeCell_lastWriteWins_witness :
    alookup "0-0" (handleV1 ⟨[("0-0", ⟨"old", 10, none⟩)], []⟩ "u1"
        (.cellEdit "0-0" "new" (10 - 1)) 99).1.grid = some ⟨"old", 10, none⟩ ∧
    (alookup "0-0" (handleV1 ⟨[("0-0", ⟨"old", 10, none⟩)], []⟩ "u1"
        (.cellEdit "0-0" "new" 10) 99).1.grid).map (·.value) = some "new" ∧
    (alookup "0-0" (handleV1 ⟨[("0-0", ⟨"old", 10, none⟩)], []⟩ "u1"
        (.cellEdit "0-0" "new" (10 + 1)) 99).1.grid).map (·.value) = some "new" :=
  writeCell_lastWriteWins ⟨[("0-0", ⟨"old", 10, none⟩)], []⟩ "u1" "0-0" "new" 99 10
    ⟨"old", 10, none⟩ (by decide) rfl

/-- C10.  `ws.on('close')` (`src/server.js` lines 88-97) deletes exactly
the closing connection's registry entry: the grid is untouched, every
other connection's entry is preserved verbatim, and no entry remains for
the closed connection. -/
theorem close_frame_property (s : V1State) (c : String) (now : Int) :
    (stepV1 s (.close c now)).1.grid = s.grid ∧
    (∀ q : String × Client, q.1 ≠ c →
      (q ∈ (stepV1 s (.close c now)).1.clients ↔ q ∈ s.clients)) ∧
    (∀ v : Client, (c, v) ∉ (stepV1 s (.close c now)).1.clients) := by
  refine ⟨rfl, ?_, ?_⟩
  · intro q hq
    simp only [stepV1]
    rw [mem_aerase_iff]
    exact ⟨fun h => h.1, fun h => ⟨h, hq⟩⟩
  · intro v hv
    simp only [stepV1] at hv
    exact (mem_aerase hv).2 rfl

/-- Witness for `close_frame_property`: closing `"b"` keeps the grid and
`"a"`'s entry, and leaves no entry for `"b"`. -/
theorem close_frame_property_witness :
    (stepV1 ⟨[("0-0", ⟨"5", 1, none⟩)],
        [("a", ⟨"a", none, some "Al", "red"⟩), ("b", ⟨"b", none, none, "blue"⟩)]⟩
      (.close "b" 7)).1.grid = [("0-0", ⟨"5", 1, none⟩)] ∧
    (("a", (⟨"a", none, some "Al", "red"⟩ : Client)) ∈
        (stepV1 ⟨[("0-0", ⟨"5", 1, none⟩)],
          [("a", ⟨"a", none, some "Al", "red"⟩), ("b", ⟨"b", none, none, "blue"⟩)]⟩
          (.close "b" 7)).1.clients ↔
      ("a", (⟨"a", none, some "Al", "red"⟩ : Client)) ∈
        [("a", (⟨"a", none, some "Al", "red"⟩ : Client)),
          ("b", ⟨"b", none, none, "blue"⟩)]) ∧
    ("b", (⟨"b", none, none, "blue"⟩ : Client)) ∉
      (stepV1 ⟨[("0-0", ⟨"5", 1, none⟩)],
        [("a", ⟨"a", none, some "Al", "red"⟩), ("b", ⟨"b", none, none, "blue"⟩)]⟩
        (.close "b" 7)).1.clients := by
  obtain ⟨h1, h2, h3⟩ := close_frame_property
    ⟨[("0-0", ⟨"5", 1, none⟩)],
      [("a", ⟨"a", none, some "Al", "red"⟩), ("b", ⟨"b", none, none, "blue"⟩)]⟩ "b" 7
  exact ⟨h1, h2 ("a", ⟨"a", none, some "Al", "red"⟩) (by decide),
    h3 ⟨"b", none, none, "blue"⟩⟩

/-- C5 (amended).  Conflict handling of a stale write: the in-memory
server (`src/server.js`) drops a write whose timestamp is below the stored
`lastUpdated` with no state change and no outbound message of any kind
(so nothing is broadcast and no error reaches the sender); the
Lambda-backed server (`src/web-socket-server/server.js`), which performs
no timestamp comparison itself, always emits exactly the one optimistic
`cell-update` carrying the incoming write's value (and no error). -/
theorem staleWrite_silentDrop_and_optimisticBroadcast :
    (∀ (s : V1State) (sender cellId value : String) (ts now : Int) (rec : CellRec),
      alookup cellId s.grid = some rec → ts < rec.lastUpdated →
      handleV1 s sender (.cellEdit cellId value ts) now = (s, [])) ∧
    (∀ (clients : List (String × WsClient)) (sender : String) (cl : WsClient)
        (gridId : String) (cellId value : String) (msgTs now : Int),
      alookup sender clients = some cl → cl.selectedGridId = some gridId →
      (wsCellEdit clients sender cellId value msgTs now).1 =
        [⟨cellId, value, value, sender, now⟩]) := by
  constructor
  · intro s sender cellId value ts now rec hrec hlt
    have hc : ¬ (ts ≥ rec.lastUpdated) := by omega
    simp [handleV1, hrec, hc]
  · intro clients sender cl gridId cellId value msgTs now hcl hgid
    simp only [wsCellEdit, hcl, Option.some_bind, hgid]
    split <;> rfl

/-- Witness for `staleWrite_silentDrop_and_optimisticBroadcast`: a stale
write (timestamp 5 against stored 10) leaves the in-memory server's state
and outbox untouched; a selected-grid client's edit on the Lambda-backed
server yields exactly the optimistic broadcast. -/
theorem staleWrite_silentDrop_witness :
    handleV1 ⟨[("0-0", ⟨"old", 10, none⟩)], []⟩ "u1" (.cellEdit "0-0" "x" 5) 99
      = (⟨[("0-0", ⟨"old", 10, none⟩)], []⟩, []) ∧
    (wsCellEdit [("s2", ⟨"s2", none, some "bob", "red", some "g2"⟩)]
        "s2" "1-0" "8" 5 42).1 = [⟨"1-0", "8", "8", "s2", 42⟩] :=
  ⟨staleWrite_silentDrop_and_optimisticBroadcast.1 _ "u1" "0-0" "x" 5 99
      ⟨"old", 10, none⟩ (by decide) (by norm_num),
    staleWrite_silentDrop_and_optimisticBroadcast.2 _ "s2"
      ⟨"s2", none, some "bob", "red", some "g2"⟩ "g2" "1-0" "8" 5 42
      (by decide) rfl⟩

/-- Counterexample for C5 as stated: in the Lambda-backed server a
`cell-edit` declaring timestamp `5` — older than a stored record whose
`lastUpdated` is `10` — is still broadcast to every connection as a
`cell-update` carrying the write's value (`rawValue = computedValue =
"7"`), because the optimistic broadcast precedes (and is oblivious to) any
conflict resolution; the declared timestamp is not even forwarded
upstream (`LamUpdateCell` has no timestamp field). -/
theorem staleWrite_isBroadcast_anyway :
    (5 : Int) < 10 ∧
    (wsCellEdit [("s1", ⟨"s1", none, some "alice", "#FF5252", some "g1"⟩)]
        "s1" "0-0" "7" 5 99).1 = [⟨"0-0", "7", "7", "s1", 99⟩] ∧
    (wsCellEdit [("s1", ⟨"s1", none, some "alice", "#FF5252", some "g1"⟩)]
        "s1" "0-0" "7" 5 99).2 = some ⟨"update_cell", "g1", "A1", "7"⟩ := by
  refine ⟨by norm_num, ?_, ?_⟩ <;> rfl

/-- C8.  A connection that has never issued `set-name` (its stored `name`
is still `null`) is absent from every `user-list` payload
`broadcastUserList` produces, and this is preserved by every modelled
operation: connect, set-name by others, cell edits, position changes and
disconnects. -/
theorem unnamed_connection_never_listed (s : V1State) (c : String)
    (evs : List V1Event)
    (h1 : UnnamedAt s.clients c) (h2 : KeysConsistent s.clients)
    (hno : ∀ n now, V1Event.inMsg c (.setName n) now ∉ evs) :
    ∀ e ∈ userListPayload (runV1 s evs).clients, e.userId ≠ c := by
  obtain ⟨hu, hk⟩ := runV1_preserves_inv evs s c h1 h2 hno
  intro e he hec
  obtain ⟨p, hp, hpe⟩ := List.mem_map.mp he
  have hpf := List.mem_filter.mp hp
  have huid : p.2.userId = p.1 := hk p hpf.1
  have hpc : p.1 = c := by
    rw [← huid, ← hec, ← hpe]
  have hmemc : (c, p.2) ∈ (runV1 s evs).clients := by
    rw [← hpc]
    simpa using hpf.1
  have hname : p.2.name = none := hu p.2 hmemc
  have htr : truthyName p.2.name = true := hpf.2
  rw [hname] at htr
  simp [truthyName] at htr

/-- Witness for `unnamed_connection_never_listed`: connection `"b"` never
sets a name across a four-event trace and is missing from the final
`user-list` payload. -/
theorem unnamed_connection_never_listed_witness :
    "b" ∉ (userListPayload (runV1
      ⟨[], [("a", ⟨"a", none, some "Al", "red"⟩), ("b", ⟨"b", none, none, "blue"⟩)]⟩
      [.inMsg "a" (.setName "Alice") 1, .inMsg "b" (.posChange (1, 2)) 2,
        .inMsg "b" (.cellEdit "0-0" "5" 3) 3, .close "a" 4]).clients).map
      (·.userId) := by
  intro hmem
  obtain ⟨e, he, heq⟩ := List.mem_map.mp hmem
  exact unnamed_connection_never_listed
    ⟨[], [("a", ⟨"a", none, some "Al", "red"⟩), ("b", ⟨"b", none, none, "blue"⟩)]⟩
    "b"
    [.inMsg "a" (.setName "Alice") 1, .inMsg "b" (.posChange (1, 2)) 2,
      .inMsg "b" (.cellEdit "0-0" "5" 3) 3, .close "a" 4]
    (by intro v hv; simp [List.mem_cons, Prod.mk.injEq] at hv; subst hv; rfl)
    (by intro q hq; simp [List.mem_cons] at hq; rcases hq with h | h <;> subst h <;> rfl)
    (by intro n now h; simp at h) e he heq

/-! ## JS numbers

JS numbers are idealised as exact rationals extended with the three IEEE
special values the evaluator can produce (`Infinity`, `-Infinity`,
`NaN`).  IEEE rounding is not modelled; every fact proved below only
involves operations on which double arithmetic is exact.  Exact rationals
are carried by `MRat`, a canonical-fraction type whose operations reduce
inside the kernel (Euclid's algorithm runs on structural fuel), so that
concrete evaluations close by `rfl`/`decide`. -/

/-- Euclid's algorithm on explicit fuel (the second argument strictly
decreases, so fuel `b + 1` always suffices). -/
def gcdFuel : Nat → Nat → Nat → Nat
  | 0, a, _ => a
  | f + 1, a, b => if b = 0 then a else gcdFuel f b (a % b)

/-- Greatest common divisor with sufficient fuel. -/
def ngcd (a b : Nat) : Nat := gcdFuel (b + 1) a b

/-- An exact rational in canonical form: `den > 0` and
`gcd (|num|, den) = 1` for every value built through `MRat.mk'` and the
arithmetic below. -/
structure MRat where
  num : Int
  den : Int
deriving DecidableEq, Repr

namespace MRat

/-- Build the canonical fraction `n / d` (`d ≠ 0` at every call site). -/
def mk' (n d : Int) : MRat :=
  let n1 : Int := if d < 0 then -n else n
  let d1 : Int := if d < 0 then -d else d
  let g : Int := (ngcd n1.natAbs d1.toNat : Int)
  if g = 0 then ⟨0, 1⟩ else ⟨n1 / g, d1 / g⟩

/-- Embed a natural number. -/
def ofNat (n : Nat) : MRat := ⟨(n : Int), 1⟩

instance (n : Nat) : OfNat MRat n := ⟨ofNat n⟩

def add (a b : MRat) : MRat := mk' (a.num * b.den + b.num * a.den) (a.den * b.den)

def neg (a : MRat) : MRat := ⟨-a.num, a.den⟩

def sub (a b : MRat) : MRat := add a (neg b)

def mul (a b : MRat) : MRat := mk' (a.num * b.num) (a.den * b.den)

/-- Division (callers guard against a zero divisor). -/
def div (a b : MRat) : MRat := mk' (a.num * b.den) (a.den * b.num)

/-- Strictly positive. -/
def isPos (a : MRat) : Bool := 0 < a.num

/-- Strictly negative. -/
def isNeg (a : MRat) : Bool := a.num < 0

end MRat

/-- A JS number: a finite (exact) value, `Infinity`, `-Infinity` or
`NaN`. -/
inductive JSNum where
  | fin (q : MRat)
  | inf
  | negInf
  | nan
deriving DecidableEq, Repr

namespace JSNum

/-- Unary minus. -/
def neg : JSNum → JSNum
  | fin q => fin q.neg
  | inf => negInf
  | negInf => inf
  | nan => nan

/-- Addition (IEEE special-value rules). -/
def add : JSNum → JSNum → JSNum
  | nan, _ => nan
  | _, nan => nan
  | inf, negInf => nan
  | negInf, inf => nan
  | inf, _ => inf
  | _, inf => inf
  | negInf, _ => negInf
  | _, negInf => negInf
  | fin a, fin b => fin (a.add b)

/-- Subtraction: `a - b = a + (-b)` matches the IEEE rules. -/
def sub (a b : JSNum) : JSNum := a.add b.neg

/-- Multiplication (IEEE special-value rules; `Infinity * 0 = NaN`). -/
def mul : JSNum → JSNum → JSNum
  | nan, _ => nan
  | _, nan => nan
  | inf, inf => inf
  | inf, negInf => negInf
  | negInf, inf => negInf
  | negInf, negInf => inf
  | inf, fin q => if q.isPos then inf else if q.isNeg then negInf else nan
  | fin q, inf => if q.isPos then inf else if q.isNeg then negInf else nan
  | negInf, fin q => if q.isPos then negInf else if q.isNeg then inf else nan
  | fin q, negInf => if q.isPos then negInf else if q.isNeg then inf else nan
  | fin a, fin b => fin (a.mul b)

/-- Division.  Crucially, a nonzero finite value divided by zero is
`±Infinity` and `0 / 0` is `NaN` — JS raises no exception. -/
def div : JSNum → JSNum → JSNum
  | nan, _ => nan
  | _, nan => nan
  | inf, inf => nan
  | inf, negInf => nan
  | negInf, inf => nan
  | negInf, negInf => nan
  | fin _, inf => fin 0
  | fin _, negInf => fin 0
  | inf, fin q => if q.isNeg then negInf else inf
  | negInf, fin q => if q.isNeg then inf else negInf
  | fin a, fin b =>
    if b.num = 0 then (if a.isPos then inf else if a.isNeg then negInf else nan)
    else fin (a.div b)

end JSNum

/-- Smallest `k ≤ 39` with `den ∣ 10 ^ k` (exists whenever `den` has only
the prime factors 2 and 5 in the sizes arising here). -/
def pow10Exp (den : Nat) : Option Nat :=
  (List.range 40).find? (fun k => 10 ^ k % den = 0)

/-- Zero-pad a digit string on the left to length `k`. -/
def padZeros (l : List Char) (k : Nat) : List Char :=
  List.replicate (k - l.length) '0' ++ l

/-- JS number-to-string coercion of a finite value.  Integers and finite
decimals are rendered exactly (which is what JS prints whenever the double
is exact, as in all cases proved below); a value with a non-terminating
decimal expansion would be rendered by JS via double shortest-round-trip
printing, which is outside this embedding — the placeholder `'?'` (not an
allowed expression character) is emitted instead, and no theorem below
exercises that branch. -/
def ratToDecimalStr (q : MRat) : List Char :=
  let sign : List Char := if q.isNeg then ['-'] else []
  let n := q.num.natAbs
  let d := q.den.toNat
  match pow10Exp d with
  | some k =>
    if k = 0 then sign ++ natToStr (n / d)
    else
      let m := n * 10 ^ k / d
      sign ++ natToStr (m / 10 ^ k) ++ '.' :: padZeros (natToStr (m % 10 ^ k)) k
  | none => ['?']

/-- `parseFloat`: skip leading spaces, optional sign, longest numeric
prefix `digits [. digits]`; `NaN` (`none`) when no digit is found.
(Exponent notation is not modelled; no claim exercises it.) -/
def parseFloatJs (s : List Char) : Option MRat :=
  let s1 := s.dropWhile (fun c => c = ' ')
  let sgn : MRat × List Char :=
    match s1 with
    | '-' :: r => (⟨-1, 1⟩, r)
    | '+' :: r => (⟨1, 1⟩, r)
    | _ => (⟨1, 1⟩, s1)
  let a := sgn.2.takeWhile isDigitCh
  let s2 := sgn.2.drop a.length
  let b : List Char :=
    match s2 with
    | '.' :: r => r.takeWhile isDigitCh
    | _ => []
  if a = [] ∧ b = [] then none
  else some (sgn.1.mul ((MRat.ofNat (digitsVal a)).add
    ((MRat.ofNat (digitsVal b)).div (MRat.ofNat (10 ^ b.length)))))

/-- `Number(...)` coercion of a string: trim spaces; the empty string is
`0`; otherwise the whole string must be `[sign] digits [. digits]` or
`[sign] . digits` (hex and exponent forms are not modelled; no claim
exercises them); anything else is `NaN` (`none`). -/
def jsNumber (s : List Char) : Option MRat :=
  let t := ((s.dropWhile (fun c => c = ' ')).reverse.dropWhile (fun c => c = ' ')).reverse
  if t = [] then some 0
  else
    let sgn : MRat × List Char :=
      match t with
      | '-' :: r => (⟨-1, 1⟩, r)
      | '+' :: r => (⟨1, 1⟩, r)
      | _ => (⟨1, 1⟩, t)
    let a := sgn.2.takeWhile isDigitCh
    let s2 := sgn.2.drop a.length
    let bRest : List Char × List Char :=
      match s2 with
      | '.' :: r => (r.takeWhile isDigitCh, (r.drop (r.takeWhile isDigitCh).length))
      | _ => ([], s2)
    if (a = [] ∧ bRest.1 = []) ∨ bRest.2 ≠ [] then none
    else some (sgn.1.mul ((MRat.ofNat (digitsVal a)).add
      ((MRat.ofNat (digitsVal bRest.1)).div (MRat.ofNat (10 ^ bRest.1.length)))))

/-! ## The arithmetic fragment of `eval`

After substitution the evaluator only accepts strings over
`[0-9+\-*/(). ]` (anything else yields `#ERR` before `eval` is reached),
so `eval` is modelled as a standard recursive-descent evaluator for that
fragment: `+ -` over `* /`, parentheses, unary sign, left-to-right
associativity at equal precedence.  A `SyntaxError` thrown by `eval`
(caught by the source and turned into `#ERR`) is `none`; `eval('')`
returns `undefined`. -/

/-- Skip spaces. -/
def skipSp (s : List Char) : List Char := s.dropWhile (fun c => c = ' ')

/-- Numeric literal: `digits [. digits]`, `digits .` or `. digits`. -/
def parseNumTok (s : List Char) : Option (MRat × List Char) :=
  let a := s.takeWhile isDigitCh
  let s1 := s.drop a.length
  match s1 with
  | '.' :: r =>
    let b := r.takeWhile isDigitCh
    if a = [] ∧ b = [] then none
    else some ((MRat.ofNat (digitsVal a)).add
      ((MRat.ofNat (digitsVal b)).div (MRat.ofNat (10 ^ b.length))), r.drop b.length)
  | _ => if a = [] then none else some (MRat.ofNat (digitsVal a), s1)

/-- Parser state: which nonterminal is being read (`pExprRest` /
`pTermRest` carry the left-folded accumulator, giving left
associativity). -/
inductive ParseMode where
  | pExpr
  | pTerm
  | pFactor
  | pExprRest (acc : JSNum)
  | pTermRest (acc : JSNum)

/-- Recursive-descent parser-evaluator for the arithmetic fragment, with
structural fuel (callers always supply fuel that dominates the input
length, so exhaustion never occurs on inputs that parse). -/
def parseArith : Nat → ParseMode → List Char → Option (JSNum × List Char)
  | 0, _, _ => none
  | f + 1, mode, s =>
    match mode with
    | .pExpr =>
      match parseArith f .pTerm s with
      | some (v, r) => parseArith f (.pExprRest v) r
      | none => none
    | .pExprRest acc =>
      match skipSp s with
      | '+' :: r =>
        match parseArith f .pTerm r with
        | some (v, r2) => parseArith f (.pExprRest (acc.add v)) r2
        | none => none
      | '-' :: r =>
        match parseArith f .pTerm r with
        | some (v, r2) => parseArith f (.pExprRest (acc.sub v)) r2
        | none => none
      | _ => some (acc, s)
    | .pTerm =>
      match parseArith f .pFactor s with
      | some (v, r) => parseArith f (.pTermRest v) r
      | none => none
    | .pTermRest acc =>
      match skipSp s with
      | '*' :: r =>
        match parseArith f .pFactor r with
        | some (v, r2) => parseArith f (.pTermRest (acc.mul v)) r2
        | none => none
      | '/' :: r =>
        match parseArith f .pFactor r with
        | some (v, r2) => parseArith f (.pTermRest (acc.div v)) r2
        | none => none
      | _ => some (acc, s)
    | .pFactor =>
      match skipSp s with
      | '-' :: r => (parseArith f .pFactor r).map (fun p => (p.1.neg, p.2))
      | '+' :: r => parseArith f .pFactor r
      | '(' :: r =>
        match parseArith f .pExpr r with
        | some (v, r2) =>
          match skipSp r2 with
          | ')' :: r3 => some (v, r3)
          | _ => none
        | none => none
      | s2 => (parseNumTok s2).map (fun p => (JSNum.fin p.1, p.2))

/-- A JS value the evaluator can return: a number, a string (`'#ERR'` or
the untouched input), or `undefined` (what `eval('')` yields). -/
inductive JSValue where
  | num (n : JSNum)
  | str (s : List Char)
  | undef
deriving DecidableEq, Repr

/-- `eval(expr)` over the arithmetic fragment; `none`-style failures (a
`SyntaxError`) map to `'#ERR'` at the caller via the source's
`try/catch`. -/
def evalJsExpr (s : List Char) : JSValue :=
  if skipSp s = [] then .undef
  else
    match parseArith (4 * s.length + 8) .pExpr s with
    | some (v, r) => if skipSp r = [] then .num v else .str "#ERR".data
    | none => .str "#ERR".data

/-- String coercion of a JS value (how a substitution callback's return
value is spliced into the expression). -/
def jsValueToString : JSValue → List Char
  | .num n =>
    match n with
    | .fin q => ratToDecimalStr q
    | .inf => "Infinity".data
    | .negInf => "-Infinity".data
    | .nan => "NaN".data
  | .str t => t
  | .undef => "undefined".data

/-- The character class the evaluator accepts after substitution
(`/[^0-9+\-*\/(). ]/` inverted). -/
def allowedChar (c : Char) : Bool :=
  isDigitCh c || ['+', '-', '*', '/', '(', ')', '.', ' '].contains c

/-! ## The formula evaluator (`evaluateFormula`, `getRangeValues`)

From `src/unnamed/part_001` lines 45-95 (textually identical in
`src/grid-fe/src/components/Grid.js`).  `getCellValue` is the cell-value
lookup capability the evaluator is given; its return value is always a
string.  JS call-stack depth is the explicit fuel of `evaluateFormula`: a
recursive evaluation attempted with no fuel left is the stack-overflow
`RangeError`, which the source catches and replaces by `'0'`. -/

/-- The cell-value lookup capability. -/
abbrev Lookup := Int → Int → List Char

/-- Trim spaces on both ends (`arg.trim()`). -/
def trimSp (s : List Char) : List Char :=
  ((s.dropWhile (fun c => c = ' ')).reverse.dropWhile (fun c => c = ' ')).reverse

/-- The range pattern `^([A-Z]+\d+):([A-Z]+\d+)$` of `getRangeValues`. -/
def parseRangePat (range : List Char) : Option (List Char × List Char) :=
  let u1 := range.takeWhile isUpperCh
  let r1 := range.drop u1.length
  let d1 := r1.takeWhile isDigitCh
  let r2 := r1.drop d1.length
  if u1 = [] ∨ d1 = [] then none
  else
    match r2 with
    | ':' :: r3 =>
      let u2 := r3.takeWhile isUpperCh
      let r4 := r3.drop u2.length
      let d2 := r4.takeWhile isDigitCh
      let r5 := r4.drop d2.length
      if u2 = [] ∨ d2 = [] ∨ r5 ≠ [] then none else some (u1 ++ d1, u2 ++ d2)
    | _ => none

/-- `getRangeValues(range, getCellValue)`: only a `REF:REF` range matches
the pattern — a bare single reference yields the empty list.  On a match
the values of the covering rectangle are collected row-major between the
componentwise min and max of the endpoints. -/
def getRangeValues (range : List Char) (getCellValue : Lookup) : List (List Char) :=
  match parseRangePat range with
  | none => []
  | some (ref1, ref2) =>
    match cellRefToIndex ref1, cellRefToIndex ref2 with
    | some (r1, c1), some (r2, c2) =>
      (intRangeIncl (min r1 r2) (max r1 r2)).flatMap (fun r =>
        (intRangeIncl (min c1 c2) (max c1 c2)).map (fun c => getCellValue r c))
    | _, _ => []

/-- The three aggregate functions the replace pattern
`(SUM|AVG|COUNT)\(([^)]+)\)` recognises. -/
inductive AggFn where
  | sum
  | avg
  | count
deriving DecidableEq, Repr

/-- Aggregate value over the range's cell values: `SUM` adds
`parseFloat(v) || 0`; `AVG` averages the values that parse as numbers
(`0` when none do); `COUNT` counts the non-empty values. -/
def aggValue (fn : AggFn) (values : List (List Char)) : MRat :=
  match fn with
  | .sum => values.foldl (fun (acc : MRat) v => acc.add ((parseFloatJs v).getD 0)) 0
  | .avg =>
    let nums := values.filterMap parseFloatJs
    if nums.length = 0 then 0
    else (nums.foldl (fun (a : MRat) b => a.add b) 0).div (MRat.ofNat nums.length)
  | .count => MRat.ofNat (values.filter (fun v => !v.isEmpty)).length

/-- `c.toUpperCase()` for ASCII. -/
def toUpperCh (c : Char) : Char :=
  if 97 ≤ c.toNat ∧ c.toNat ≤ 122 then Char.ofNat (c.toNat - 32) else c

/-- Case-insensitive literal prefix match; returns the rest of the
input. -/
def matchCI : List Char → List Char → Option (List Char)
  | [], s => some s
  | _, [] => none
  | p :: ps, c :: cs => if toUpperCh c = p then matchCI ps cs else none

/-- Try one aggregate head `NAME(` followed by a nonempty run of
non-`')'` characters and `')'` (the regex `NAME\(([^)]+)\)`,
case-insensitive on `NAME`). -/
def tryAggAt (fn : AggFn) (pat : List Char) (s : List Char) :
    Option (AggFn × List Char × List Char) :=
  match matchCI pat s with
  | some ('(' :: r) =>
    let arg := r.takeWhile (fun c => c ≠ ')')
    let rest := r.drop arg.length
    if arg = [] then none
    else
      match rest with
      | ')' :: rem => some (fn, arg, rem)
      | _ => none
  | _ => none

/-- Match `(SUM|AVG|COUNT)\(([^)]+)\)` at the current position. -/
def tryMatchAgg (s : List Char) : Option (AggFn × List Char × List Char) :=
  (tryAggAt .sum ['S', 'U', 'M'] s).orElse (fun _ =>
    (tryAggAt .avg ['A', 'V', 'G'] s).orElse (fun _ =>
      tryAggAt .count ['C', 'O', 'U', 'N', 'T'] s))

/-- The global aggregate replace: scan left to right; at a match, splice
the aggregate's value (string-coerced) and continue after the matched
text; otherwise keep the character.  Structural fuel dominates the input
length (each step consumes at least one input character). -/
def replaceAggsAux (getCellValue : Lookup) : Nat → List Char → List Char
  | 0, s => s
  | f + 1, s =>
    match s with
    | [] => []
    | c :: rest =>
      match tryMatchAgg (c :: rest) with
      | some (fn, arg, rem) =>
        ratToDecimalStr (aggValue fn (getRangeValues (trimSp arg) getCellValue))
          ++ replaceAggsAux getCellValue f rem
      | none => c :: replaceAggsAux getCellValue f rest

/-- `formula.replace(/(SUM|AVG|COUNT)\(([^)]+)\)/gi, ...)`. -/
def replaceAggs (getCellValue : Lookup) (s : List Char) : List Char :=
  replaceAggsAux getCellValue s.length s

/-- Match `([A-Z]+\d+)` at the current position: a maximal uppercase run
immediately followed by a maximal digit run (if the run is not followed
by a digit the regex fails here and the scan advances one character). -/
def tryMatchRef (s : List Char) : Option (List Char × List Char) :=
  let u := s.takeWhile isUpperCh
  if u = [] then none
  else
    let r := s.drop u.length
    let d := r.takeWhile isDigitCh
    if d = [] then none else some (u ++ d, r.drop d.length)

/-- The global cell-reference replace (`formula.replace(/([A-Z]+\d+)/g,
subst)`), scanning like `replaceAggsAux`. -/
def replaceRefsAux (subst : List Char → List Char) : Nat → List Char → List Char
  | 0, s => s
  | f + 1, s =>
    match s with
    | [] => []
    | c :: rest =>
      match tryMatchRef (c :: rest) with
      | some (ref, rem) => subst ref ++ replaceRefsAux subst f rem
      | none => c :: replaceRefsAux subst f rest

/-- Entry point of the reference replace. -/
def replaceRefs (subst : List Char → List Char) (s : List Char) : List Char :=
  replaceRefsAux subst s.length s

/-- Splice the outcome of a recursive evaluation: a completed value is
string-coerced; a stack-overflow `RangeError` (`none`) is caught and
replaced by `'0'` (the source's `try { ... } catch { return '0' }`). -/
def spliceRec (o : Option JSValue) : List Char :=
  match o with
  | some v => jsValueToString v
  | none => ['0']

/-- The reference-substitution callback: a reference whose cell holds a
formula is evaluated recursively (via `spliceRec`); an empty or
non-numeric value becomes `'0'`; a numeric value is spliced as
`Number(val)` string-coerced. -/
def refSubst (recurse : Lookup → List Char → Option JSValue)
    (getCellValue : Lookup) (ref : List Char) : List Char :=
  match cellRefToIndex ref with
  | none => ['0']
  | some (r, c) =>
    let val := getCellValue r c
    if val.head? = some '=' then spliceRec (recurse getCellValue (val.drop 1))
    else if val = [] then ['0']
    else
      match jsNumber val with
      | none => ['0']
      | some q => ratToDecimalStr q

/-- Final phase of `evaluateFormula` on the fully substituted expression:
the character-class check (`#ERR` on any disallowed character), then
`eval`. -/
def evalFinish (expr : List Char) : JSValue :=
  if expr.any (fun c => !allowedChar c) then .str "#ERR".data
  else evalJsExpr expr

/-- One pass of `evaluateFormula` given the recursion capability:
aggregate replace, reference replace, character-class check, `eval`. -/
def evalStep (recurse : Lookup → List Char → Option JSValue)
    (getCellValue : Lookup) (formula : List Char) : JSValue :=
  evalFinish (replaceRefs (refSubst recurse getCellValue)
    (replaceAggs getCellValue formula))

/-- `evaluateFormula(formula, getCellValue)` with explicit stack fuel:
at fuel `0` any attempted recursive evaluation is the stack-overflow
`RangeError` (modelled as `none`, turned into `'0'` by the `catch`). -/
def evaluateFormula : Nat → Lookup → List Char → JSValue
  | 0, getCellValue, formula => evalStep (fun _ _ => none) getCellValue formula
  | f + 1, getCellValue, formula =>
    evalStep (fun l t => some (evaluateFormula f l t)) getCellValue formula

/-! ## Test lookups used by the claim theorems -/

/-- A grid with no populated cells. -/
def emptyLookup : Lookup := fun _ _ => []

/-- A grid whose only populated cell is A1 (row 0, col 0). -/
def singleCellLookup (v : List Char) : Lookup :=
  fun r c => if r = 0 ∧ c = 0 then v else []

/-- A grid with A1 and A2 populated (rows 0 and 1 of column 0). -/
def twoCellLookup (v1 v2 : List Char) : Lookup :=
  fun r c => if r = 0 ∧ c = 0 then v1 else if r = 1 ∧ c = 0 then v2 else []

/-- The two-cell cyclic grid of the claim: A1 = `"=B1"`, B1 = `"=A1"`
(B1 is row 0, col 1). -/
def cycLookup : Lookup :=
  fun r c =>
    if r = 0 ∧ c = 0 then "=B1".data
    else if r = 0 ∧ c = 1 then "=A1".data else []

/-! ## Claim theorems: formula evaluator -/

theorem evalStep_cyc (g : Lookup → List Char → Option JSValue)
    (hA : g cycLookup "A1".data = some (.num (.fin 0)))
    (hB : g cycLookup "B1".data = some (.num (.fin 0))) :
    evalStep g cycLookup "A1".data = .num (.fin 0) ∧
      evalStep g cycLookup "B1".data = .num (.fin 0) := by
  constructor
  · have e0 : evalStep g cycLookup "A1".data
        = evalFinish (spliceRec (g cycLookup "B1".data) ++ []) := rfl
    rw [e0, hB]
    rfl
  · have e0 : evalStep g cycLookup "B1".data
        = evalFinish (spliceRec (g cycLookup "A1".data) ++ []) := rfl
    rw [e0, hA]
    rfl

/-- C2.  The evaluator has no cycle detection: on the cyclic grid
A1 = `"=B1"`, B1 = `"=A1"`, evaluating either formula recurses once per
available stack frame (the fuel), and for EVERY stack budget the final
value is the number `0` — never the `#ERR` marker.  In JS the mutual
recursion runs until the engine's stack overflows; the thrown
`RangeError` is caught by the substitution callback and replaced by
`'0'`, so the computed value is `0`. -/
theorem formulaCycle_no_detection (f : Nat) :
    evaluateFormula f cycLookup "A1".data = .num (.fin 0) ∧
      evaluateFormula f cycLookup "B1".data = .num (.fin 0) := by
  induction f with
  | zero => exact ⟨by decide, by decide⟩
  | succ f ih =>
    exact evalStep_cyc (fun l t => some (evaluateFormula f l t))
      (congrArg some ih.1) (congrArg some ih.2)

/-- Counterexample for C4 as stated: the evaluator's aggregate pattern is
`(SUM|AVG|COUNT)` — `AVERAGE` is NOT recognised.  `"=AVERAGE(A1:A2)"`
with both cells empty leaves `AVERAGE(0:0)` after reference substitution,
whose letters fail the character-class check: the result is `#ERR`,
not `0`. -/
theorem average_name_not_recognized :
    evaluateFormula 1 (twoCellLookup [] []) "AVERAGE(A1:A2)".data = .str "#ERR".data ∧
      evaluateFormula 1 (twoCellLookup [] []) "AVERAGE(A1:A2)".data ≠ .num (.fin 0) := by
  constructor <;> decide

theorem evalStep_avg_nonNumeric (g : Lookup → List Char → Option JSValue)
    (v1 v2 : List Char) (h1 : parseFloatJs v1 = none) (h2 : parseFloatJs v2 = none) :
    evalStep g (twoCellLookup v1 v2) "AVG(A1:A2)".data = .num (.fin 0) ∧
      evalStep g (twoCellLookup v1 v2) "avg(A1:A2)".data = .num (.fin 0) := by
  have e2 : aggValue .avg [v1, v2] = 0 := by
    simp [aggValue, List.filterMap_cons, h1, h2]
  constructor
  · have e0 : evalStep g (twoCellLookup v1 v2) "AVG(A1:A2)".data
        = evalFinish (replaceRefs (refSubst g (twoCellLookup v1 v2))
            (ratToDecimalStr (aggValue .avg [v1, v2]) ++ [])) := rfl
    rw [e0, e2]
    rfl
  · have e0 : evalStep g (twoCellLookup v1 v2) "avg(A1:A2)".data
        = evalFinish (replaceRefs (refSubst g (twoCellLookup v1 v2))
            (ratToDecimalStr (aggValue .avg [v1, v2]) ++ [])) := rfl
    rw [e0, e2]
    rfl

/-- C4 (amended).  The average aggregate is recognised case-insensitively
under the name `AVG` (not `AVERAGE`): for a range none of whose values
parses as a number, `=AVG(A1:A2)` (in any letter case) evaluates to `0` —
not `#ERR` and not a division-by-zero error — at every stack budget. -/
theorem avg_nonNumeric_range_is_zero (v1 v2 : List Char)
    (h1 : parseFloatJs v1 = none) (h2 : parseFloatJs v2 = none) (f : Nat) :
    evaluateFormula f (twoCellLookup v1 v2) "AVG(A1:A2)".data = .num (.fin 0) ∧
      evaluateFormula f (twoCellLookup v1 v2) "avg(A1:A2)".data = .num (.fin 0) := by
  cases f with
  | zero => exact evalStep_avg_nonNumeric _ v1 v2 h1 h2
  | succ f => exact evalStep_avg_nonNumeric _ v1 v2 h1 h2

/-- Witness for `avg_nonNumeric_range_is_zero`: A1 empty and A2 the
non-numeric text `"hello"`. -/
theorem avg_nonNumeric_range_is_zero_witness :
    evaluateFormula 1 (twoCellLookup [] "hello".data) "AVG(A1:A2)".data
        = .num (.fin 0) ∧
      evaluateFormula 1 (twoCellLookup [] "hello".data) "avg(A1:A2)".data
        = .num (.fin 0) :=
  avg_nonNumeric_range_is_zero [] "hello".data (by decide) (by decide) 1

/-- Counterexample for C6 as stated: `"=1/0"` does not yield `#ERR` — JS
division by zero raises no exception and `eval('1/0')` is `Infinity`,
which the evaluator returns as the computed value. -/
theorem div_by_zero_not_err :
    evaluateFormula 1 emptyLookup "1/0".data = .num .inf ∧
      evaluateFormula 1 emptyLookup "1/0".data ≠ .str "#ERR".data := by
  constructor <;> decide

/-- C6 (amended).  Division by zero yields JS `Infinity` (`NaN` for
`0/0`), not `#ERR` and not a raised exception; elsewhere the arithmetic
follows standard operator precedence with left-to-right associativity at
equal precedence (`2+3*4 = 14`, `2*3+4 = 10`, `8-3-2 = 3`, `16/4/2 = 2`,
`(2+3)*4 = 20`). -/
theorem div_by_zero_infinity_and_precedence :
    evaluateFormula 1 emptyLookup "1/0".data = .num .inf ∧
      evaluateFormula 1 emptyLookup "0/0".data = .num .nan ∧
      evaluateFormula 1 emptyLookup "2+3*4".data = .num (.fin 14) ∧
      evaluateFormula 1 emptyLookup "2*3+4".data = .num (.fin 10) ∧
      evaluateFormula 1 emptyLookup "8-3-2".data = .num (.fin 3) ∧
      evaluateFormula 1 emptyLookup "16/4/2".data = .num (.fin 2) ∧
      evaluateFormula 1 emptyLookup "(2+3)*4".data = .num (.fin 20) := by
  refine ⟨?_, ?_, ?_, ?_, ?_, ?_, ?_⟩ <;> decide

/-- Counterexample for C7 as stated: `"=SUM(A1)"` with A1 = `"5"`
evaluates to `0`, not to A1's value `5` — `getRangeValues` only matches
`REF:REF`, so a single-reference argument expands to no cells. -/
theorem sum_single_ref_not_cell_value :
    evaluateFormula 1 (singleCellLookup "5".data) "SUM(A1)".data = .num (.fin 0) ∧
      evaluateFormula 1 (singleCellLookup "5".data) "SUM(A1)".data
        ≠ .num (.fin 5) := by
  constructor <;> decide

/-- C7 (amended).  An aggregate whose argument is a single cell reference
IS recognised by the aggregate pattern, but its range expands to no cells
(`getRangeValues` requires a `REF:REF` colon pattern and returns the
empty list for every lookup), so `SUM(A1)`, `COUNT(A1)` and `AVG(A1)`
all evaluate to `0` regardless of the cell's content. -/
theorem single_ref_aggregate_empty_range :
    (∀ lookup : Lookup, getRangeValues "A1".data lookup = []) ∧
      evaluateFormula 1 (singleCellLookup "5".data) "SUM(A1)".data = .num (.fin 0) ∧
      evaluateFormula 1 (singleCellLookup "5".data) "COUNT(A1)".data = .num (.fin 0) ∧
      evaluateFormula 1 (singleCellLookup "5".data) "AVG(A1)".data = .num (.fin 0) := by
  refine ⟨fun lookup => rfl, ?_, ?_, ?_⟩ <;> decide

/-- C9.  A bare cell reference whose looked-up value is empty or not
parseable as a number is substituted by `'0'` (never `#ERR`); e.g.
`"=A1+1"` with A1 = `"hello"` evaluates to `1`. -/
theorem nonNumeric_ref_substitutes_zero :
    (∀ (recurse : Lookup → List Char → Option JSValue) (lk : Lookup)
        (ref : List Char) (r c : Int) (val : List Char),
      cellRefToIndex ref = some (r, c) → lk r c = val →
      val.head? ≠ some '=' → (val = [] ∨ jsNumber val = none) →
      refSubst recurse lk ref = ['0']) ∧
      evaluateFormula 1 (singleCellLookup "hello".data) "A1+1".data
        = .num (.fin 1) := by
  constructor
  · intro recurse lk ref r c val href hval hne hcase
    rw [refSubst, href]
    dsimp only
    rw [hval, if_neg hne]
    rcases hcase with hemp | hnum
    · rw [if_pos hemp]
    · by_cases hemp : val = []
      · rw [if_pos hemp]
      · rw [if_neg hemp, hnum]
  · decide

/-- Witness for `nonNumeric_ref_substitutes_zero`: the substitution
callback maps `"A1"` holding `"hello"` to `'0'`, and the full formula
`"A1+1"` evaluates to `1`. -/
theorem nonNumeric_ref_substitutes_zero_witness :
    refSubst (fun _ _ => none) (singleCellLookup "hello".data) "A1".data = ['0'] ∧
      evaluateFormula 1 (singleCellLookup "hello".data) "A1+1".data
        = .num (.fin 1) :=
  ⟨nonNumeric_ref_substitutes_zero.1 (fun _ _ => none)
      (singleCellLookup "hello".data) "A1".data 0 0 "hello".data
      (by decide) rfl (by decide) (Or.inr (by decide)),
    nonNumeric_ref_substitutes_zero.2⟩

end Grid
